import Mathlib

/-!
Verification of the sigma-protocols proof-of-concept library (Python reference
implementation of draft-irtf-cfrg-sigma-protocols).

Shallow embedding conventions:
* Python byte strings are `List Nat` (entries are byte values).
* Python arbitrary-precision integers are `Nat`; modular reduction is explicit.
* Field elements (class PrimeFieldElement) are represented by their `value`
  attribute, a `Nat` reduced modulo the field characteristic at construction.
* Fallible Python code (raise / assert) returns `Except String _`.
* External hash primitives (hashlib sha256 / shake_128 / sha3_256) are not part
  of the repository; they are passed as function parameters, so every theorem
  quantifies over them.
* The group used by the library is abstracted as a `GroupModel` (the Python
  code is duck-typed over the group); the laws the P-256 group satisfies are
  the `GroupLaws` predicate.  The P-256 point (de)serialization and field
  arithmetic are embedded concretely with the modulus as a parameter.
-/

set_option maxRecDepth 8000

namespace SigmaPoC

/-! ## Byte-string primitives (int.to_bytes / int.from_bytes / I2OSP / OS2IP) -/

/-- Little-endian encoding of `n` into exactly `len` bytes
(Python `n.to_bytes(len, 'little')`, assuming `n < 256 ^ len`). -/
def natToBytesLE : Nat → Nat → List Nat
  | 0, _ => []
  | len + 1, n => n % 256 :: natToBytesLE len (n / 256)

/-- Little-endian decoding of a byte string (Python `int.from_bytes(_, 'little')`). -/
def natFromBytesLE : List Nat → Nat
  | [] => 0
  | b :: bs => b + 256 * natFromBytesLE bs

/-- Big-endian encoding of `n` into exactly `len` bytes
(Python `n.to_bytes(len, 'big')`, also `I2OSP`). -/
def natToBytesBE (len n : Nat) : List Nat := (natToBytesLE len n).reverse

/-- Big-endian decoding of a byte string (Python `int.from_bytes(_, 'big')`, also `OS2IP`). -/
def natFromBytesBE (bs : List Nat) : Nat := natFromBytesLE bs.reverse

theorem natToBytesLE_length (len n : Nat) : (natToBytesLE len n).length = len := by
  induction len generalizing n with
  | zero => rfl
  | succ k ih => simp [natToBytesLE, ih]

theorem natToBytesBE_length (len n : Nat) : (natToBytesBE len n).length = len := by
  simp [natToBytesBE, natToBytesLE_length]

theorem natFromBytesLE_natToBytesLE (len n : Nat) (h : n < 256 ^ len) :
    natFromBytesLE (natToBytesLE len n) = n := by
  induction len generalizing n with
  | zero =>
    simp [natToBytesLE, natFromBytesLE]
    omega
  | succ k ih =>
    have hdiv : n / 256 < 256 ^ k := by
      rw [Nat.div_lt_iff_lt_mul (by norm_num)]
      calc n < 256 ^ (k + 1) := h
        _ = 256 ^ k * 256 := by ring
    simp only [natToBytesLE, natFromBytesLE, ih (n / 256) hdiv]
    omega

theorem natFromBytesBE_natToBytesBE (len n : Nat) (h : n < 256 ^ len) :
    natFromBytesBE (natToBytesBE len n) = n := by
  simpa [natFromBytesBE, natToBytesBE] using natFromBytesLE_natToBytesLE len n h

/-! ## Python int.bit_length -/

/-- Fuel-driven binary length; the fuel argument only bounds the recursion. -/
def bitLenAux : Nat → Nat → Nat
  | 0, _ => 0
  | fuel + 1, k => if k = 0 then 0 else bitLenAux fuel (k / 2) + 1

/-- Python `k.bit_length()` for natural `k` (the fuel `k` always suffices,
since the binary length of `k` never exceeds `k`). -/
def pyBitLength (k : Nat) : Nat := bitLenAux k k

/-! ## Python three-argument pow (modular exponentiation) -/

/-- Python `pow(a, e, p)` for naturals. -/
def powMod (a e p : Nat) : Nat := a ^ e % p

theorem powMod_lt (a e : Nat) {p : Nat} (hp : 0 < p) : powMod a e p < p :=
  Nat.mod_lt _ hp

theorem powMod_cast (a e p : Nat) : ((powMod a e p : Nat) : ZMod p) = ((a : ZMod p)) ^ e := by
  rw [powMod, ZMod.natCast_mod]; push_cast; ring

/-! ## Prime field arithmetic (groups/field.py, class PrimeFieldElement)

Field elements are their `value` attribute; the constructor reduces modulo `p`,
so all operations below return reduced values. -/

/-- Constructor `cls.field(value)` / `PrimeFieldElement.__init__`: reduce mod `p`. -/
def pfMk (p v : Nat) : Nat := v % p

/-- Field addition `__add__`. -/
def pfAdd (p a b : Nat) : Nat := (a + b) % p

/-- Field multiplication `__mul__` (also covers the int-operand branch). -/
def pfMul (p a b : Nat) : Nat := (a * b) % p

/-- Field negation `__neg__`: Python `(-value) % p` on a reduced value. -/
def pfNeg (p a : Nat) : Nat := (p - a % p) % p

/-- Field subtraction `__sub__`: Python computes `(a - b) % p` over the integers,
where `%` is the nonnegative Python remainder. -/
def pfSub (p a b : Nat) : Nat := (((a : Int) - (b : Int)) % (p : Int)).toNat

/-- Field division `__truediv__`: multiply by the Fermat inverse `b ^ (p - 2) mod p`. -/
def pfDiv (p a b : Nat) : Nat := (a * powMod b (p - 2) p) % p

/-- Square root `PrimeFieldElement.sqrt`: an error when `p % 4 ≠ 3`
(NotImplementedError), `none` when the Euler power is not 1, otherwise the
candidate root `a ^ ((p + 1) / 4) mod p`. -/
def pfSqrt (p a : Nat) : Except String (Option Nat) :=
  if p % 4 ≠ 3 then .error "sqrt only implemented for p = 3 mod 4"
  else if powMod a ((p - 1) / 2) p ≠ 1 then .ok none
  else .ok (some (powMod a ((p + 1) / 4) p))

/-- Quadratic-residue test `PrimeFieldElement.is_square` (Euler criterion,
with an explicit `true` for zero). -/
def pfIsSquare (p a : Nat) : Bool :=
  if a = 0 then true else powMod a ((p - 1) / 2) p = 1

/-! ## Elliptic curve points (groups/elliptic_curve.py)

A point is the infinity flag or a pair of reduced field coordinates. The curve
parameters `(p, a, b)` accompany every operation (the Python point holds a
reference to its curve). -/

inductive ECPoint where
  | inf : ECPoint
  | pt (x y : Nat) : ECPoint
deriving DecidableEq, Repr

/-- Point addition `EllipticCurvePoint.__add__` over curve `y^2 = x^3 + aa*x + bb`
modulo `p` (textbook affine formulas, exactly as the source computes them). -/
def ecAdd (p aa : Nat) : ECPoint → ECPoint → ECPoint
  | .inf, q => q
  | .pt x1 y1, .inf => .pt x1 y1
  | .pt x1 y1, .pt x2 y2 =>
    if x1 = x2 then
      if y1 = y2 then
        if y1 = 0 then .inf
        else
          let s := pfDiv p (pfAdd p (pfMul p (pfMul p x1 3) x1) aa) (pfMul p y1 2)
          let x3 := pfSub p (pfMul p s s) (pfMul p x1 2)
          let y3 := pfSub p (pfMul p s (pfSub p x1 x3)) y1
          .pt x3 y3
      else .inf
    else
      let s := pfDiv p (pfSub p y2 y1) (pfSub p x2 x1)
      let x3 := pfSub p (pfSub p (pfMul p s s) x1) x2
      let y3 := pfSub p (pfMul p s (pfSub p x1 x3)) y1
      .pt x3 y3

/-- Double-and-add loop of `EllipticCurvePoint.__mul__`; the fuel argument
only bounds the recursion (the scalar halves each step). -/
def ecMulAux (p aa : Nat) : Nat → ECPoint → ECPoint → Nat → ECPoint
  | 0, result, _, _ => result
  | fuel + 1, result, addend, k =>
    if k = 0 then result
    else
      ecMulAux p aa fuel
        (if k % 2 = 1 then ecAdd p aa result addend else result)
        (ecAdd p aa addend addend) (k / 2)

/-- Scalar multiplication `EllipticCurvePoint.__mul__` for a nonnegative scalar. -/
def ecMul (p aa : Nat) (P : ECPoint) (k : Nat) : ECPoint :=
  if k = 0 then .inf else ecMulAux p aa k .inf P k

/-- Curve point constructor `EllipticCurve.__call__`: reduce the coordinates and
check the curve equation, raising when the point is not on the curve. -/
def curveMk (p aa bb x y : Nat) : Except String ECPoint :=
  let xr := pfMk p x
  let yr := pfMk p y
  if pfMul p yr yr =
      pfAdd p (pfAdd p (pfMul p (pfMul p xr xr) xr) (pfMul p (pfMk p aa) xr)) (pfMk p bb)
  then .ok (.pt xr yr) else .error "Point not on curve"

/-! ## P-256 constants (groups/p256.py) -/

def pP256 : Nat := 0xffffffff00000001000000000000000000000000ffffffffffffffffffffffff

def nP256 : Nat := 0xffffffff00000000ffffffffffffffffbce6faada7179e84f3b9cac2fc632551

def aP256 : Nat := pP256 - 3

def bP256 : Nat := 0x5ac635d8aa3a93e7b3ebbd55769886bc651d06b0cc53b0f63bce3c3e27d2604b

/-! ## P-256 point serialization (GroupP256.serialize / GroupP256.deserialize)

The byte widths 32 and 33 are hard-coded in the source; the curve parameters
are kept as arguments so that theorems can quantify over them. -/

/-- One element of the batch loop in `GroupP256.serialize`: the identity is
a zero byte padded to 33 bytes, other points are SEC1 compressed. -/
def p256SerializeOne : ECPoint → List Nat
  | .inf => 0 :: List.replicate 32 0
  | .pt x y => (if y % 2 = 0 then 2 else 3) :: natToBytesBE 32 x

/-- Batch serialization `GroupP256.serialize`. -/
def p256Serialize (l : List ECPoint) : List Nat := (l.map p256SerializeOne).flatten

/-- Body of the per-chunk work in `GroupP256.deserialize` for one 33-byte block. -/
def p256DeserChunk (p aa bb : Nat) (blk : List Nat) : Except String ECPoint :=
  if blk.headD 0 = 0 then .ok .inf
  else
    let flag := blk.headD 0
    let x := pfMk p (natFromBytesBE (blk.drop 1))
    let ysq := pfAdd p (pfAdd p (pfMul p (pfMul p x x) x) (pfMul p (pfMk p aa) x)) (pfMk p bb)
    match pfSqrt p ysq with
    | .error e => .error e
    | .ok none => .error "Invalid point"
    | .ok (some y0) =>
      let y := if (flag = 2 ∧ y0 % 2 = 1) ∨ (flag = 3 ∧ y0 % 2 = 0) then pfNeg p y0 else y0
      curveMk p aa bb x y

/-- Generic chunked decoding loop: `cnt` blocks of `k` bytes, front to back
(the shape of the `for i in range(0, len(data), k)` loops in the source). -/
def chunkFoldE (k : Nat) (f : List Nat → Except String α) : Nat → List Nat → Except String (List α)
  | 0, _ => .ok []
  | cnt + 1, d =>
    (f (d.take k)).bind fun x =>
      (chunkFoldE k f cnt (d.drop k)).map fun xs => x :: xs

/-- Batch deserialization `GroupP256.deserialize`: reject lengths that are not
multiples of 33, then decode each 33-byte block. -/
def p256Deserialize (p aa bb : Nat) (data : List Nat) : Except String (List ECPoint) :=
  if data.length % 33 ≠ 0 then .error "Invalid data length"
  else chunkFoldE 33 (p256DeserChunk p aa bb) (data.length / 33) data

/-! ## Scalar field (groups/base.py, class ScalarField with the P-256 order)

Scalars are their reduced `Nat` values in `F_n` with `n = nP256`
(both registry ciphersuites use the P-256 scalar field). -/

/-- Attribute `field_bytes_length = (order.bit_length() + 7) // 8`. -/
def scalarByteLen : Nat := (pyBitLength nP256 + 7) / 8

theorem scalarByteLen_eq : scalarByteLen = 32 := by decide

/-- Method `ScalarField.random(rng)`: the injected RNG call
`rng.randint(1, order - 1)` is modelled by its result `1 + v % (order - 1)`
(`v` ranges over all raw generator outputs, covering every RNG whose
`randint(a, b)` returns `a + t` with `t < b - a + 1`); the constructor then
reduces modulo the order. -/
def sfRandom (v : Nat) : Nat := pfMk nP256 (1 + v % (nP256 - 1))

/-- Method `ScalarField.serialize`: fixed-width little-endian per scalar. -/
def sfSerialize (scalars : List Nat) : List Nat :=
  (scalars.map (natToBytesLE scalarByteLen)).flatten

/-- Per-chunk body of `ScalarField.deserialize`: decode and reduce. -/
def sfDeserChunk (chunk : List Nat) : Except String Nat :=
  .ok (pfMk nP256 (natFromBytesLE chunk))

/-- Method `ScalarField.deserialize`: reject lengths that are not multiples of
the scalar width, then decode each block little-endian and reduce. -/
def sfDeserialize (data : List Nat) : Except String (List Nat) :=
  if data.length % scalarByteLen ≠ 0 then .error "Invalid data length"
  else chunkFoldE scalarByteLen sfDeserChunk (data.length / scalarByteLen) data

/-! ## Abstract group interface

The sigma-protocol and Fiat-Shamir code is duck-typed over the group: it only
uses identity, point addition, scalar multiplication by an integer, fixed-width
batch (de)serialization, and equality.  A `GroupModel` collects those
operations; `GroupLaws` states the facts that hold for the P-256 backend and
that the completeness argument uses. -/

structure GroupModel where
  G : Type
  gadd : G → G → G
  gid : G
  /-- Scalar multiplication `element * scalar` with the scalar already
  converted to its integer value. -/
  gsmul : Nat → G → G
  gbeq : G → G → Bool
  serializeOne : G → List Nat
  deserializeOne : List Nat → Except String G
  elemLen : Nat

/-- Batch serialization `group.serialize(elements)`: concatenation of the
per-element encodings. -/
def modelSerialize (M : GroupModel) (l : List M.G) : List Nat :=
  (l.map M.serializeOne).flatten

/-- Batch deserialization `group.deserialize(data)`: reject lengths that are
not a multiple of the element width, then decode each block. -/
def modelDeserialize (M : GroupModel) (data : List Nat) : Except String (List M.G) :=
  if data.length % M.elemLen ≠ 0 then .error "Invalid data length"
  else chunkFoldE M.elemLen M.deserializeOne (data.length / M.elemLen) data

/-- The group facts used by the protocol: an abelian monoid, a scalar action of
the naturals that factors through the scalar-field order `nP256`, faithful
boolean equality, and width-`elemLen` serialization that round-trips. -/
structure GroupLaws (M : GroupModel) : Prop where
  gadd_assoc : ∀ x y z : M.G, M.gadd (M.gadd x y) z = M.gadd x (M.gadd y z)
  gadd_comm : ∀ x y : M.G, M.gadd x y = M.gadd y x
  gid_gadd : ∀ x : M.G, M.gadd M.gid x = x
  gsmul_zero : ∀ x : M.G, M.gsmul 0 x = M.gid
  gsmul_add : ∀ (a b : Nat) (x : M.G), M.gsmul (a + b) x = M.gadd (M.gsmul a x) (M.gsmul b x)
  gsmul_gsmul : ∀ (a b : Nat) (x : M.G), M.gsmul a (M.gsmul b x) = M.gsmul (b * a) x
  gsmul_gadd : ∀ (a : Nat) (x y : M.G), M.gsmul a (M.gadd x y) = M.gadd (M.gsmul a x) (M.gsmul a y)
  gsmul_gid : ∀ a : Nat, M.gsmul a M.gid = M.gid
  gsmul_mod : ∀ (k : Nat) (x : M.G), M.gsmul (k % nP256) x = M.gsmul k x
  gbeq_iff : ∀ x y : M.G, M.gbeq x y = true ↔ x = y
  serializeOne_length : ∀ g : M.G, (M.serializeOne g).length = M.elemLen
  elemLen_pos : 0 < M.elemLen
  deserializeOne_serializeOne : ∀ g : M.G, M.deserializeOne (M.serializeOne g) = .ok g

/-! ## Linear maps and instances (sigma_protocols/sigma_protocols.py) -/

/-- Class `LinearMap`: sparse linear combinations over a list of group
elements (each combination is its pair of parallel index lists). -/
structure LinearMapModel (G : Type) where
  linear_combinations : List (List Nat × List Nat)
  group_elements : List G
  num_scalars : Nat
  num_elements : Nat
  num_constraints : Nat

/-- One linear combination of `LinearMap.__call__`: starting from the identity,
fold `result + element * scalar` over the zipped index lists. -/
def lcEval (M : GroupModel) (elements : List M.G) (scalars : List Nat)
    (lc : List Nat × List Nat) : M.G :=
  (lc.1.zip lc.2).foldl
    (fun result t => M.gadd result (M.gsmul (scalars.getD t.1 0) (elements.getD t.2 M.gid)))
    M.gid

/-- Application `LinearMap.__call__(scalars)`: one group element per
linear combination. -/
def linearMapApply (M : GroupModel) (lm : LinearMapModel M.G) (scalars : List Nat) : List M.G :=
  lm.linear_combinations.map (lcEval M lm.group_elements scalars)

/-- Class `Instance`: a linear map together with its claimed image. -/
structure InstanceModel (G : Type) where
  linear_map : LinearMapModel G
  image : List G

/-- Method `Instance.get_label()`: SHA-256 (a model parameter) over
`num_scalars` and `num_constraints` as 4-byte little-endian integers followed
by the serialized image elements (serialized one by one, as the source loop
calls `serialize([element])` per element). -/
def instanceGetLabel (M : GroupModel) (sha256 : List Nat → List Nat)
    (inst : InstanceModel M.G) : List Nat :=
  sha256 (natToBytesLE 4 inst.linear_map.num_scalars
    ++ natToBytesLE 4 inst.linear_map.num_constraints
    ++ (inst.image.map (fun e => modelSerialize M [e])).flatten)

/-- The label preimage the specification prescribes for an instance:
`num_scalars:u32-LE || num_elements:u32-LE || num_constraints:u32-LE ||
concat(serialize(group_elements)) || concat(serialize(image))`
(written from the words of the spec, for comparison with the source's
`instanceGetLabel`). -/
def specInstanceLabelPreimage (M : GroupModel) (inst : InstanceModel M.G) : List Nat :=
  natToBytesLE 4 inst.linear_map.num_scalars
    ++ natToBytesLE 4 inst.linear_map.num_elements
    ++ natToBytesLE 4 inst.linear_map.num_constraints
    ++ (inst.linear_map.group_elements.map (fun e => modelSerialize M [e])).flatten
    ++ (inst.image.map (fun e => modelSerialize M [e])).flatten

/-- Method `LinearRelation.get_label()`: SHA-256 over the three counts in
4-byte little-endian followed by the serialized map elements and the image. -/
def relationGetLabel (M : GroupModel) (sha256 : List Nat → List Nat)
    (inst : InstanceModel M.G) : List Nat :=
  sha256 (natToBytesLE 4 inst.linear_map.num_scalars
    ++ natToBytesLE 4 inst.linear_map.num_elements
    ++ natToBytesLE 4 inst.linear_map.num_constraints
    ++ (inst.linear_map.group_elements.map (fun e => modelSerialize M [e])).flatten
    ++ (inst.image.map (fun e => modelSerialize M [e])).flatten)

/-! ## Duplex sponges (fiat_shamir/duplex_sponge.py)

The two variants are pure state machines once the hash primitives are fixed;
`shake` and `sha3` are parameters standing for `hashlib.shake_128(_).digest(L)`
and `hashlib.sha3_256(_).digest()`. -/

structure SpongeModel where
  S : Type
  ofIV : List Nat → S
  absorb : S → List Nat → S
  squeeze : S → Nat → S × List Nat

/-- Class `Shake128DuplexSponge` (= `DuplexSpongeInterface`): the state is the
append-only transcript buffer; absorbing appends, squeezing hashes the buffer
and appends the output.  (The internal `hasher` attribute never influences any
output, so it is not part of the state.) -/
def shakeSponge (shake : List Nat → Nat → List Nat) : SpongeModel where
  S := List Nat
  ofIV iv := iv
  absorb s d := s ++ d
  squeeze s L := (s ++ shake s L, shake s L)

/-- Output blocks of `Keccak256DuplexSponge.squeeze`: the first block hashes
`state || buffer`, each further block hashes the previous block. -/
def keccakBlocks (sha3 : List Nat → List Nat) : List Nat → Nat → List Nat
  | _, 0 => []
  | h0, k + 1 => h0 ++ keccakBlocks sha3 (sha3 h0) k

/-- Class `Keccak256DuplexSponge`: state is `(state, buffer)`.  Squeezing runs
the iterated-SHA3 output loop, then ratchets `state := SHA3(state || buffer ||
output)` and clears the buffer.

Modelled from the spec: `hashlib.sha3_256` is external; its digests are 32
bytes, so the `while len(output) < length` loop runs `ceil(length / 32)`
times. -/
def keccakSponge (sha3 : List Nat → List Nat) : SpongeModel where
  S := List Nat × List Nat
  ofIV iv := (iv, [])
  absorb s d := (s.1, s.2 ++ d)
  squeeze s L :=
    let out := (keccakBlocks sha3 (sha3 (s.1 ++ s.2)) ((L + 31) / 32)).take L
    ((sha3 (s.1 ++ s.2 ++ out), []), out)

/-- The ciphersuite registry names (sigma_protocols/ciphersuite.py): both
entries use the P-256 group and codec and differ only in the sponge. -/
inductive SuiteName where
  | P256_SHAKE128
  | P256_KECCAK256
deriving DecidableEq, Repr

/-- The sponge selected by each registry entry. -/
def suiteSponge (shake : List Nat → Nat → List Nat) (sha3 : List Nat → List Nat) :
    SuiteName → SpongeModel
  | .P256_SHAKE128 => shakeSponge shake
  | .P256_KECCAK256 => keccakSponge sha3

/-! ## Codec (fiat_shamir/codec.py) -/

/-- Method `Codec.init(session_id, instance_label)`:
`len(session_id):u32-BE || session_id || len(label):u32-BE || label`. -/
def codecInit (session_id instance_label : List Nat) : List Nat :=
  natToBytesBE 4 session_id.length ++ session_id
    ++ natToBytesBE 4 instance_label.length ++ instance_label

/-- Method `ByteSchnorrCodec.prover_message`: absorb the batch serialization
of the commitment elements. -/
def codecProverMessage (M : GroupModel) (sp : SpongeModel) (st : sp.S)
    (elements : List M.G) : sp.S :=
  sp.absorb st (modelSerialize M elements)

/-- Method `ByteSchnorrCodec.verifier_challenge`: squeeze
`scalar_byte_length + 16` bytes, read them big-endian, reduce modulo the
scalar-field order. -/
def codecVerifierChallenge (sp : SpongeModel) (st : sp.S) : sp.S × Nat :=
  let r := sp.squeeze st (scalarByteLen + 16)
  (r.1, natFromBytesBE r.2 % nP256)

/-! ## Schnorr protocol (sigma_protocols/sigma_protocols.py, class SchnorrProof)

The RNG is modelled as the stream of raw outputs consumed by successive
`randint` calls; `k0` is the index of the first unconsumed output, so that
sequential consumption across sub-protocols can be expressed. -/

/-- Nonce list of `SchnorrProof.prover_commit`: one `ScalarField.random` call
per scalar variable, consuming the RNG stream in order from index `k0`. -/
def schnorrNonces (rng : Nat → Nat) (k0 count : Nat) : List Nat :=
  (List.range count).map fun i => sfRandom (rng (k0 + i))

/-- Method `SchnorrProof.prover_commit`: sample nonces, return the prover state
(witness and nonces) and the commitment `linear_map(nonces)`. -/
def schnorrProverCommit (M : GroupModel) (inst : InstanceModel M.G)
    (witness : List Nat) (rng : Nat → Nat) (k0 : Nat) :
    (List Nat × List Nat) × List M.G :=
  let nonces := schnorrNonces rng k0 inst.linear_map.num_scalars
  ((witness, nonces), linearMapApply M inst.linear_map nonces)

/-- Method `SchnorrProof.prover_response`: `response[i] = nonces[i] +
witness[i] * challenge` in the scalar field. -/
def schnorrProverResponse (inst : InstanceModel G) (prover_state : List Nat × List Nat)
    (challenge : Nat) : List Nat :=
  (List.range inst.linear_map.num_scalars).map fun i =>
    pfAdd nP256 (prover_state.2.getD i 0) (pfMul nP256 (prover_state.1.getD i 0) challenge)

/-- Boolean equality of lists from an element-level test (the semantics of the
Python `==` on lists of group elements). -/
def listBeq (f : α → α → Bool) : List α → List α → Bool
  | [], [] => true
  | x :: xs, y :: ys => f x y && listBeq f xs ys
  | _, _ => false

/-- Method `SchnorrProof.verifier`: check the two length assertions, compute
`expected = linear_map(response)` and `got[i] = commitment[i] +
image[i] * challenge`, and assert their equality; a failed assertion is an
error, success returns `true`. -/
def schnorrVerifier (M : GroupModel) (inst : InstanceModel M.G)
    (commitment : List M.G) (challenge : Nat) (response : List Nat) :
    Except String Bool :=
  if commitment.length ≠ inst.linear_map.num_constraints then .error "AssertionError"
  else if response.length ≠ inst.linear_map.num_scalars then .error "AssertionError"
  else
    let expected := linearMapApply M inst.linear_map response
    let got := (List.range inst.linear_map.num_constraints).map fun i =>
      M.gadd (commitment.getD i M.gid) (M.gsmul challenge (inst.image.getD i M.gid))
    if listBeq M.gbeq got expected then .ok true else .error "Verification failed"

/-- Method `SchnorrProof.simulate_response`: a list of `ScalarField.random`
samples, one per scalar variable. -/
def schnorrSimulateResponse (rng : Nat → Nat) (k0 count : Nat) : List Nat :=
  schnorrNonces rng k0 count

/-- Method `SchnorrProof.serialize_commitment` = `Image.serialize`. -/
def schnorrSerializeCommitment (M : GroupModel) (commitment : List M.G) : List Nat :=
  modelSerialize M commitment

/-- Method `SchnorrProof.serialize_response` = `Domain.serialize`. -/
def schnorrSerializeResponse (response : List Nat) : List Nat :=
  sfSerialize response

/-! ## Fiat-Shamir transform (fiat_shamir/transform.py) -/

/-- The sponge state of a fresh proof session: `FiatShamirNIZK.__call__`
absorbs nothing but constructs the sponge from the codec init string over
`(session_id, instance.get_label())`. -/
def nizkInitState (M : GroupModel) (sp : SpongeModel) (sha256 : List Nat → List Nat)
    (session_id : List Nat) (inst : InstanceModel M.G) : sp.S :=
  sp.ofIV (codecInit session_id (instanceGetLabel M sha256 inst))

/-- Method `NonInteractiveProof.prove`: commit, absorb the commitment, squeeze
the challenge, respond, and return `serialize(commitment) ||
serialize(response)`. -/
def niProve (M : GroupModel) (sp : SpongeModel) (sha256 : List Nat → List Nat)
    (session_id : List Nat) (inst : InstanceModel M.G)
    (witness : List Nat) (rng : Nat → Nat) : List Nat :=
  let st0 := nizkInitState M sp sha256 session_id inst
  let pc := schnorrProverCommit M inst witness rng 0
  let st1 := codecProverMessage M sp st0 pc.2
  let challenge := (codecVerifierChallenge sp st1).2
  let response := schnorrProverResponse inst pc.1 challenge
  schnorrSerializeCommitment M pc.2 ++ schnorrSerializeResponse response

/-- Method `NonInteractiveProof.verify`: split the proof at the byte width of
an identity commitment, deserialize both parts, reconstruct the challenge from
a fresh transcript, and run the verifier. -/
def niVerify (M : GroupModel) (sp : SpongeModel) (sha256 : List Nat → List Nat)
    (session_id : List Nat) (inst : InstanceModel M.G)
    (proof : List Nat) : Except String Bool :=
  let st0 := nizkInitState M sp sha256 session_id inst
  let commitment_size :=
    (schnorrSerializeCommitment M
      (List.replicate inst.linear_map.num_constraints M.gid)).length
  let commitment_bytes := proof.take commitment_size
  let response_bytes := proof.drop commitment_size
  (modelDeserialize M commitment_bytes).bind fun commitment =>
    (sfDeserialize response_bytes).bind fun response =>
      let st1 := codecProverMessage M sp st0 commitment
      let challenge := (codecVerifierChallenge sp st1).2
      schnorrVerifier M inst commitment challenge response

/-! ## AND composition (sigma_protocols/composition.py, class AndProof)

An AND composite is a list of sub-instances; the prover also carries one
witness per sub-instance. -/

/-- ASCII bytes of the label tag "AND_PROOF". -/
def andProofTag : List Nat := [65, 78, 68, 95, 80, 82, 79, 79, 70]

/-- Method `AndProof.get_instance_label`: SHA-256 over the tag followed by the
sub-instance labels. -/
def andGetLabel (M : GroupModel) (sha256 : List Nat → List Nat)
    (insts : List (InstanceModel M.G)) : List Nat :=
  sha256 (andProofTag ++ (insts.map (instanceGetLabel M sha256)).flatten)

/-- Method `AndProof.prover_commit`: run each sub-commit in declaration order,
consuming the shared RNG stream sequentially (each sub-prover consumes one raw
output per scalar variable). -/
def andCommitList (M : GroupModel) (rng : Nat → Nat) :
    List (InstanceModel M.G × List Nat) → Nat → List ((List Nat × List Nat) × List M.G)
  | [], _ => []
  | (inst, w) :: rest, k0 =>
    schnorrProverCommit M inst w rng k0 ::
      andCommitList M rng rest (k0 + inst.linear_map.num_scalars)

/-- Method `AndProof.serialize_commitment`: concatenate the per-sub-protocol
commitment serializations in declaration order. -/
def andSerializeCommitment (M : GroupModel) (insts : List (InstanceModel M.G))
    (commitments : List (List M.G)) : List Nat :=
  ((insts.zip commitments).map fun t => schnorrSerializeCommitment M t.2).flatten

/-- Method `AndProof.serialize_response`: concatenate the per-sub-protocol
response serializations in declaration order. -/
def andSerializeResponse (insts : List (InstanceModel G))
    (responses : List (List Nat)) : List Nat :=
  ((insts.zip responses).map fun t => schnorrSerializeResponse t.2).flatten

/-- Method `NonInteractiveProof.prove` instantiated with `AndProof` and the
flattening `P256AndCodec`: the sub-commitments are flattened into one element
list before being absorbed, the shared challenge drives every sub-response,
and the proof bytes are `serialize_commitment(commitments) ||
serialize_response(responses)`. -/
def niProveAnd (M : GroupModel) (sp : SpongeModel) (sha256 : List Nat → List Nat)
    (session_id : List Nat) (subs : List (InstanceModel M.G × List Nat))
    (rng : Nat → Nat) : List Nat :=
  let insts := subs.map Prod.fst
  let st0 := sp.ofIV (codecInit session_id (andGetLabel M sha256 insts))
  let pcs := andCommitList M rng subs 0
  let commitments := pcs.map Prod.snd
  let st1 := sp.absorb st0 (modelSerialize M commitments.flatten)
  let challenge := (codecVerifierChallenge sp st1).2
  let responses := (insts.zip (pcs.map Prod.fst)).map fun t =>
    schnorrProverResponse t.1 t.2 challenge
  andSerializeCommitment M insts commitments ++ andSerializeResponse insts responses

/-- The AND proof layout the claim asserts (written from the words of the
spec, for comparison with `niProveAnd`): the same pipeline, but assembling the
proof as the concatenation of complete sub-proofs, each one its commitment
bytes immediately followed by its response bytes. -/
def specAndProveInterleaved (M : GroupModel) (sp : SpongeModel)
    (sha256 : List Nat → List Nat) (session_id : List Nat)
    (subs : List (InstanceModel M.G × List Nat)) (rng : Nat → Nat) : List Nat :=
  let insts := subs.map Prod.fst
  let st0 := sp.ofIV (codecInit session_id (andGetLabel M sha256 insts))
  let pcs := andCommitList M rng subs 0
  let commitments := pcs.map Prod.snd
  let st1 := sp.absorb st0 (modelSerialize M commitments.flatten)
  let challenge := (codecVerifierChallenge sp st1).2
  let responses := (insts.zip (pcs.map Prod.fst)).map fun t =>
    schnorrProverResponse t.1 t.2 challenge
  ((insts.zip (commitments.zip responses)).map fun t =>
    schnorrSerializeCommitment M t.2.1 ++ schnorrSerializeResponse t.2.2).flatten

/-! ## Concrete model instantiations

These are used to evaluate the embedded code on concrete inputs: the genuine
P-256 backend, the scalar-field group (a faithful prime-order group for the
abstract interface), a trivial byte-transparent group, and degenerate hash
functions. -/

instance : NeZero nP256 := ⟨by decide⟩

/-- The concrete P-256 group backend as a `GroupModel`. -/
def p256Model : GroupModel where
  G := ECPoint
  gadd := ecAdd pP256 aP256
  gid := .inf
  gsmul k P := ecMul pP256 aP256 P k
  gbeq P Q := decide (P = Q)
  serializeOne := p256SerializeOne
  deserializeOne := p256DeserChunk pP256 aP256 bP256
  elemLen := 33

/-- A lawful group for the abstract interface: the additive group of the
scalar field itself, with serialization by value. -/
def zmodGroupModel : GroupModel where
  G := ZMod nP256
  gadd x y := x + y
  gid := 0
  gsmul k x := (k : ZMod nP256) * x
  gbeq x y := decide (x = y)
  serializeOne g := natToBytesLE 33 g.val
  deserializeOne bs := .ok ((natFromBytesLE bs : Nat) : ZMod nP256)
  elemLen := 33

/-- A byte-transparent group used to evaluate proof layouts concretely. -/
def natBytesModel : GroupModel where
  G := Nat
  gadd x y := x + y
  gid := 0
  gsmul k x := x * k
  gbeq x y := decide (x = y)
  serializeOne g := List.replicate 33 g
  deserializeOne bs := .ok (bs.headD 0)
  elemLen := 33

/-- Degenerate SHAKE128 model: all-zero output of the requested length. -/
def zeroShake : List Nat → Nat → List Nat := fun _ L => List.replicate L 0

/-- Degenerate SHA3-256 model: the all-zero 32-byte digest. -/
def zeroSha3 : List Nat → List Nat := fun _ => List.replicate 32 0

/-- A content-sensitive SHA3-256 model with 32-byte digests: the last byte
records the input length. -/
def lenSha3 : List Nat → List Nat := fun m => List.replicate 31 0 ++ [m.length % 256]

/-- A one-scalar, one-element, one-constraint linear map over the scalar-field
group (the discrete-log shape `X = x * G` with `G = 1`). -/
def wLM : LinearMapModel (ZMod nP256) where
  linear_combinations := [([0], [0])]
  group_elements := [(1 : ZMod nP256)]
  num_scalars := 1
  num_elements := 1
  num_constraints := 1

/-- The instance for `wLM` whose image is the image of the witness `[2]`. -/
def wInst : InstanceModel (ZMod nP256) where
  linear_map := wLM
  image := linearMapApply zmodGroupModel wLM [2]

/-- A one-scalar, one-element, one-constraint P-256 instance whose element and
image are the identity point. -/
def cexInstP256 : InstanceModel ECPoint where
  linear_map :=
    { linear_combinations := [([0], [0])]
      group_elements := [ECPoint.inf]
      num_scalars := 1
      num_elements := 1
      num_constraints := 1 }
  image := [ECPoint.inf]

/-- A one-scalar, one-constraint instance over the byte-transparent group with
element value 5. -/
def cexInstNat : InstanceModel Nat where
  linear_map :=
    { linear_combinations := [([0], [0])]
      group_elements := [5]
      num_scalars := 1
      num_elements := 1
      num_constraints := 1 }
  image := [5]

/-! ## Helper lemmas -/

theorem nP256_pos : 0 < nP256 := by decide

theorem nP256_lt_byte32 : nP256 < 256 ^ 32 := by decide

theorem nP256_lt_byte33 : nP256 < 256 ^ 33 := by decide

theorem getD_range_map (f : Nat → α) (s i : Nat) (d : α) :
    ((List.range s).map f).getD i d = if i < s then f i else d := by
  rcases Nat.lt_or_ge i s with h | h
  · simp [List.getD_eq_getElem?_getD, List.getElem?_map, List.getElem?_range h, h]
  · have hnone : (List.range s)[i]? = none := by
      rw [List.getElem?_eq_none_iff]; simpa using h
    simp [List.getD_eq_getElem?_getD, List.getElem?_map, hnone, Nat.not_lt.mpr h]

theorem getD_map_lt (l : List α) (f : α → β) (i : Nat) (d : β) (d' : α)
    (h : i < l.length) : (l.map f).getD i d = f (l.getD i d') := by
  simp [List.getD_eq_getElem?_getD, List.getElem?_map, List.getElem?_eq_getElem h,
    List.getD_eq_getElem l d' h]

theorem listBeq_iff (f : α → α → Bool) (hf : ∀ x y, f x y = true ↔ x = y) :
    ∀ l1 l2 : List α, listBeq f l1 l2 = true ↔ l1 = l2 := by
  intro l1
  induction l1 with
  | nil => intro l2; cases l2 <;> simp [listBeq]
  | cons x xs ih =>
    intro l2
    cases l2 with
    | nil => simp [listBeq]
    | cons y ys => simp [listBeq, hf, ih]

theorem modelSerialize_length (M : GroupModel) (hM : GroupLaws M) (l : List M.G) :
    (modelSerialize M l).length = M.elemLen * l.length := by
  induction l with
  | nil => simp [modelSerialize]
  | cons g gs ih =>
    simp only [modelSerialize, List.map_cons, List.flatten_cons, List.length_append,
      hM.serializeOne_length g, List.length_cons] at *
    rw [ih]; ring

theorem sfSerialize_length (l : List Nat) : (sfSerialize l).length = 32 * l.length := by
  induction l with
  | nil => simp [sfSerialize]
  | cons z zs ih =>
    simp only [sfSerialize, List.map_cons, List.flatten_cons, List.length_append,
      natToBytesLE_length, scalarByteLen_eq, List.length_cons] at *
    rw [ih]; ring

theorem chunkFoldE_cons (k : Nat) (f : List Nat → Except String α)
    (b : List Nat) (hb : b.length = k) (cnt : Nat) (rest : List Nat) :
    chunkFoldE k f (cnt + 1) (b ++ rest)
      = (f b).bind fun x => (chunkFoldE k f cnt rest).map fun xs => x :: xs := by
  have ht : (b ++ rest).take k = b := by rw [← hb]; exact List.take_left _ _
  have hd : (b ++ rest).drop k = rest := by rw [← hb]; exact List.drop_left _ _
  simp [chunkFoldE, ht, hd]

theorem modelDeserialize_modelSerialize (M : GroupModel) (hM : GroupLaws M)
    (l : List M.G) : modelDeserialize M (modelSerialize M l) = .ok l := by
  have hlen := modelSerialize_length M hM l
  have hcnt : (modelSerialize M l).length / M.elemLen = l.length := by
    rw [hlen, Nat.mul_div_cancel_left _ hM.elemLen_pos]
  have hmod : (modelSerialize M l).length % M.elemLen = 0 := by
    rw [hlen]; exact Nat.mul_mod_right _ _
  rw [modelDeserialize, if_neg (by simp [hmod]), hcnt]
  clear hlen hcnt hmod
  induction l with
  | nil => simp [modelSerialize, chunkFoldE]
  | cons g gs ih =>
    have : modelSerialize M (g :: gs) = M.serializeOne g ++ modelSerialize M gs := by
      simp [modelSerialize]
    rw [this, List.length_cons, chunkFoldE_cons M.elemLen _ _ (hM.serializeOne_length g),
      hM.deserializeOne_serializeOne g, ih]
    rfl

theorem sfDeserialize_sfSerialize (l : List Nat) (hl : ∀ z ∈ l, z < nP256) :
    sfDeserialize (sfSerialize l) = .ok l := by
  have hlen := sfSerialize_length l
  have hmod : (sfSerialize l).length % scalarByteLen = 0 := by
    rw [hlen, scalarByteLen_eq]; exact Nat.mul_mod_right _ _
  have hcnt : (sfSerialize l).length / scalarByteLen = l.length := by
    rw [hlen, scalarByteLen_eq, Nat.mul_div_cancel_left _ (by norm_num)]
  rw [sfDeserialize, if_neg (by simp [hmod]), hcnt]
  clear hlen hmod hcnt
  induction l with
  | nil => simp [sfSerialize, chunkFoldE]
  | cons z zs ih =>
    have hz : z < nP256 := hl z (List.mem_cons_self _ _)
    have hsplit : sfSerialize (z :: zs) = natToBytesLE scalarByteLen z ++ sfSerialize zs := by
      simp [sfSerialize]
    rw [hsplit, List.length_cons,
      chunkFoldE_cons scalarByteLen _ _ (natToBytesLE_length _ _),
      ih (fun w hw => hl w (List.mem_cons_of_mem _ hw))]
    have hrt : natFromBytesLE (natToBytesLE scalarByteLen z) = z := by
      rw [scalarByteLen_eq]
      exact natFromBytesLE_natToBytesLE 32 z (lt_trans hz nP256_lt_byte32)
    simp only [sfDeserChunk, hrt, pfMk, Nat.mod_eq_of_lt hz]
    rfl

/-! ## Abelian-monoid sums over a GroupModel -/

/-- Sum of a list of group elements (right fold from the identity). -/
def gsum (M : GroupModel) (l : List M.G) : M.G := l.foldr M.gadd M.gid

theorem gadd_gid (M : GroupModel) (hM : GroupLaws M) (x : M.G) : M.gadd x M.gid = x := by
  rw [hM.gadd_comm]; exact hM.gid_gadd x

theorem foldl_gadd_eq_gsum (M : GroupModel) (hM : GroupLaws M) (f : α → M.G) :
    ∀ (l : List α) (A : M.G),
      l.foldl (fun acc t => M.gadd acc (f t)) A = M.gadd A (gsum M (l.map f)) := by
  intro l
  induction l with
  | nil => intro A; simp [gsum, gadd_gid M hM]
  | cons x xs ih =>
    intro A
    have ih' := ih (M.gadd A (f x))
    simp only [gsum, List.map_cons, List.foldr_cons, List.foldl_cons] at *
    rw [ih', hM.gadd_assoc]

theorem lcEval_eq_gsum (M : GroupModel) (hM : GroupLaws M) (els : List M.G)
    (sc : List Nat) (lc : List Nat × List Nat) :
    lcEval M els sc lc
      = gsum M ((lc.1.zip lc.2).map fun t =>
          M.gsmul (sc.getD t.1 0) (els.getD t.2 M.gid)) := by
  rw [lcEval, foldl_gadd_eq_gsum M hM, hM.gid_gadd]

theorem gsum_map_gadd (M : GroupModel) (hM : GroupLaws M) (f g : α → M.G) (l : List α) :
    gsum M (l.map fun t => M.gadd (f t) (g t))
      = M.gadd (gsum M (l.map f)) (gsum M (l.map g)) := by
  induction l with
  | nil => simp [gsum, gadd_gid M hM]
  | cons x xs ih =>
    simp only [List.map_cons, gsum, List.foldr_cons]
    have ihx : (List.map (fun t => M.gadd (f t) (g t)) xs).foldr M.gadd M.gid
        = M.gadd ((xs.map f).foldr M.gadd M.gid) ((xs.map g).foldr M.gadd M.gid) := ih
    rw [ihx]
    rw [hM.gadd_assoc (f x) (g x), ← hM.gadd_assoc (g x), hM.gadd_comm (g x),
      hM.gadd_assoc _ (g x), ← hM.gadd_assoc (f x)]

theorem gsmul_gsum (M : GroupModel) (hM : GroupLaws M) (e : Nat) (l : List M.G) :
    M.gsmul e (gsum M l) = gsum M (l.map (M.gsmul e)) := by
  induction l with
  | nil => simp [gsum, hM.gsmul_gid]
  | cons x xs ih =>
    simp only [gsum, List.foldr_cons, List.map_cons] at *
    rw [hM.gsmul_gadd, ih]

/-! ## Completeness algebra -/

theorem schnorrNonces_length (rng : Nat → Nat) (k0 count : Nat) :
    (schnorrNonces rng k0 count).length = count := by
  simp [schnorrNonces]

theorem schnorrProverResponse_length (inst : InstanceModel G)
    (ps : List Nat × List Nat) (e : Nat) :
    (schnorrProverResponse inst ps e).length = inst.linear_map.num_scalars := by
  simp [schnorrProverResponse]

theorem schnorrProverResponse_lt (inst : InstanceModel G)
    (ps : List Nat × List Nat) (e : Nat) :
    ∀ z ∈ schnorrProverResponse inst ps e, z < nP256 := by
  intro z hz
  simp only [schnorrProverResponse, List.mem_map] at hz
  obtain ⟨i, _, rfl⟩ := hz
  exact Nat.mod_lt _ nP256_pos

/-- The response entry identity behind completeness: for every index pair, the
response scalar acts on an element exactly as nonce plus challenge-scaled
witness, thanks to the order-`nP256` scalar action. -/
theorem gsmul_response_term (M : GroupModel) (hM : GroupLaws M)
    (s : Nat) (w r resp : List Nat) (hw : w.length = s) (hr : r.length = s) (e : Nat)
    (hresp : resp = (List.range s).map fun i =>
      pfAdd nP256 (r.getD i 0) (pfMul nP256 (w.getD i 0) e))
    (t : Nat × Nat) (E : M.G) :
    M.gsmul (resp.getD t.1 0) E
      = M.gadd (M.gsmul (r.getD t.1 0) E) (M.gsmul e (M.gsmul (w.getD t.1 0) E)) := by
  subst hresp
  rcases Nat.lt_or_ge t.1 s with h | h
  · rw [getD_range_map _ s t.1 0, if_pos h]
    set R := r.getD t.1 0
    set W := w.getD t.1 0
    rw [pfAdd, hM.gsmul_mod, pfMul, hM.gsmul_add, hM.gsmul_mod, ← hM.gsmul_gsmul]
  · have h1 : ((List.range s).map fun i =>
        pfAdd nP256 (r.getD i 0) (pfMul nP256 (w.getD i 0) e)).getD t.1 0 = 0 := by
      rw [getD_range_map _ s t.1 0, if_neg (Nat.not_lt.mpr h)]
    have h2 : r.getD t.1 0 = 0 := List.getD_eq_default _ _ (hr ▸ h)
    have h3 : w.getD t.1 0 = 0 := List.getD_eq_default _ _ (hw ▸ h)
    rw [h1, h2, h3, hM.gsmul_zero, hM.gsmul_gid, hM.gid_gadd]

/-- Completeness of one linear combination: evaluating the map at the response
splits into the commitment part plus the challenge-scaled witness part. -/
theorem lcEval_response (M : GroupModel) (hM : GroupLaws M) (els : List M.G)
    (s : Nat) (w r resp : List Nat) (hw : w.length = s) (hr : r.length = s) (e : Nat)
    (hresp : resp = (List.range s).map fun i =>
      pfAdd nP256 (r.getD i 0) (pfMul nP256 (w.getD i 0) e))
    (lc : List Nat × List Nat) :
    lcEval M els resp lc
      = M.gadd (lcEval M els r lc) (M.gsmul e (lcEval M els w lc)) := by
  rw [lcEval_eq_gsum M hM, lcEval_eq_gsum M hM, lcEval_eq_gsum M hM,
    gsmul_gsum M hM, List.map_map]
  have hfun : (fun t : Nat × Nat =>
      M.gsmul (resp.getD t.1 0) (els.getD t.2 M.gid))
      = fun t => M.gadd (M.gsmul (r.getD t.1 0) (els.getD t.2 M.gid))
          (M.gsmul e (M.gsmul (w.getD t.1 0) (els.getD t.2 M.gid))) := by
    funext t
    exact gsmul_response_term M hM s w r resp hw hr e hresp t _
  rw [hfun, gsum_map_gadd M hM]
  rfl

/-! ## The scalar-field group satisfies the group laws -/

theorem zmodGroupLaws : GroupLaws zmodGroupModel where
  gadd_assoc := fun (x y z : ZMod nP256) => add_assoc x y z
  gadd_comm := fun (x y : ZMod nP256) => add_comm x y
  gid_gadd := fun (x : ZMod nP256) => zero_add x
  gsmul_zero := fun (x : ZMod nP256) => by
    show ((0 : Nat) : ZMod nP256) * x = (0 : ZMod nP256)
    simp
  gsmul_add := fun a b (x : ZMod nP256) => by
    show ((a + b : Nat) : ZMod nP256) * x = (a : ZMod nP256) * x + (b : ZMod nP256) * x
    push_cast; ring
  gsmul_gsmul := fun a b (x : ZMod nP256) => by
    show (a : ZMod nP256) * ((b : ZMod nP256) * x) = ((b * a : Nat) : ZMod nP256) * x
    push_cast; ring
  gsmul_gadd := fun a (x y : ZMod nP256) => mul_add _ x y
  gsmul_gid := fun a => mul_zero ((a : Nat) : ZMod nP256)
  gsmul_mod := fun k (x : ZMod nP256) => by
    show ((k % nP256 : Nat) : ZMod nP256) * x = ((k : Nat) : ZMod nP256) * x
    rw [ZMod.natCast_mod]
  gbeq_iff := fun (x y : ZMod nP256) => by
    show decide (x = y) = true ↔ x = y
    simp
  serializeOne_length := fun (g : ZMod nP256) => natToBytesLE_length 33 g.val
  elemLen_pos := by decide
  deserializeOne_serializeOne := fun (g : ZMod nP256) => by
    show Except.ok ((natFromBytesLE (natToBytesLE 33 g.val) : Nat) : ZMod nP256)
      = Except.ok g
    rw [natFromBytesLE_natToBytesLE 33 g.val (lt_trans g.val_lt nP256_lt_byte33),
      ZMod.natCast_val, ZMod.cast_id]

/-- Parsing step of `NonInteractiveProof.verify` on a well-formed proof: the
byte split and the two deserializations recover the commitment and the
response, after which only the verifier call remains. -/
theorem niVerify_split (M : GroupModel) (hM : GroupLaws M) (sp : SpongeModel)
    (sha256 : List Nat → List Nat) (session_id : List Nat) (inst : InstanceModel M.G)
    (T : List M.G) (z : List Nat)
    (hT : T.length = inst.linear_map.num_constraints)
    (hz : ∀ x ∈ z, x < nP256) :
    niVerify M sp sha256 session_id inst
        (schnorrSerializeCommitment M T ++ schnorrSerializeResponse z)
      = schnorrVerifier M inst T
          ((codecVerifierChallenge sp
            (codecProverMessage M sp (nizkInitState M sp sha256 session_id inst) T)).2)
          z := by
  have hcsize : (schnorrSerializeCommitment M
      (List.replicate inst.linear_map.num_constraints M.gid)).length
      = (schnorrSerializeCommitment M T).length := by
    simp only [schnorrSerializeCommitment, modelSerialize_length M hM,
      List.length_replicate, hT]
  have htake : (schnorrSerializeCommitment M T ++ schnorrSerializeResponse z).take
      (schnorrSerializeCommitment M T).length = schnorrSerializeCommitment M T :=
    List.take_left _ _
  have hdrop : (schnorrSerializeCommitment M T ++ schnorrSerializeResponse z).drop
      (schnorrSerializeCommitment M T).length = schnorrSerializeResponse z :=
    List.drop_left _ _
  rw [niVerify, hcsize, htake, hdrop]
  rw [show schnorrSerializeCommitment M T = modelSerialize M T from rfl,
    modelDeserialize_modelSerialize M hM T,
    show schnorrSerializeResponse z = sfSerialize z from rfl,
    sfDeserialize_sfSerialize z hz]
  rfl

/-- The Schnorr verifier accepts every honest transcript: for any challenge,
the response built from the nonces and a valid witness passes every
per-constraint check. -/
theorem schnorrVerifier_complete (M : GroupModel) (hM : GroupLaws M)
    (inst : InstanceModel M.G)
    (hWF : inst.linear_map.linear_combinations.length = inst.linear_map.num_constraints)
    (witness : List Nat) (hw : witness.length = inst.linear_map.num_scalars)
    (hrel : linearMapApply M inst.linear_map witness = inst.image)
    (r : List Nat) (hr : r.length = inst.linear_map.num_scalars) (e : Nat) :
    schnorrVerifier M inst (linearMapApply M inst.linear_map r) e
      (schnorrProverResponse inst (witness, r) e) = .ok true := by
  have hTlen : (linearMapApply M inst.linear_map r).length
      = inst.linear_map.num_constraints := by
    simp [linearMapApply, hWF]
  have hzlen : (schnorrProverResponse inst (witness, r) e).length
      = inst.linear_map.num_scalars := schnorrProverResponse_length inst _ e
  have hgot : ((List.range inst.linear_map.num_constraints).map fun i =>
        M.gadd ((linearMapApply M inst.linear_map r).getD i M.gid)
          (M.gsmul e (inst.image.getD i M.gid)))
      = linearMapApply M inst.linear_map (schnorrProverResponse inst (witness, r) e) := by
    apply List.ext_getElem
    · simp [linearMapApply, hWF]
    · intro i h1 h2
      have hic : i < inst.linear_map.num_constraints := by simpa using h1
      have hilcs : i < inst.linear_map.linear_combinations.length := hWF ▸ hic
      simp only [List.getElem_map, List.getElem_range, linearMapApply]
      rw [getD_map_lt _ _ i M.gid (([], []) : List Nat × List Nat) (by simpa [linearMapApply] using hilcs)]
      rw [← hrel]
      rw [show linearMapApply M inst.linear_map witness
        = inst.linear_map.linear_combinations.map
            (lcEval M inst.linear_map.group_elements witness) from rfl]
      rw [getD_map_lt _ _ i M.gid (([], []) : List Nat × List Nat) (by simpa using hilcs)]
      rw [List.getD_eq_getElem _ _ hilcs]
      exact (lcEval_response M hM inst.linear_map.group_elements
        inst.linear_map.num_scalars witness r _ hw hr e rfl _).symm
  rw [schnorrVerifier, if_neg (by simp [hTlen]), if_neg (by simp [hzlen])]
  have hbeq := (listBeq_iff M.gbeq hM.gbeq_iff _ _).mpr hgot
  simp only [hbeq, if_pos]

/-- C1: for every ciphersuite in the registry (P256_SHAKE128, P256_KECCAK256 —
selected by `suite`, with the external hash primitives arbitrary), every
statement (a linear map satisfying its structural invariant over any group
satisfying the P-256 group laws), every witness with `linear_map(witness) =
image`, every session id, and every RNG: proving in a fresh session and
verifying the returned bytes in a second fresh session built from the same
session id and instance returns `true`. -/
theorem c1_completeness (M : GroupModel) (hM : GroupLaws M)
    (inst : InstanceModel M.G)
    (hWF : inst.linear_map.linear_combinations.length = inst.linear_map.num_constraints)
    (witness : List Nat) (hw : witness.length = inst.linear_map.num_scalars)
    (hrel : linearMapApply M inst.linear_map witness = inst.image)
    (session_id : List Nat) (rng : Nat → Nat) (sha256 : List Nat → List Nat)
    (shake : List Nat → Nat → List Nat) (sha3 : List Nat → List Nat)
    (suite : SuiteName) :
    niVerify M (suiteSponge shake sha3 suite) sha256 session_id inst
      (niProve M (suiteSponge shake sha3 suite) sha256 session_id inst witness rng)
      = .ok true := by
  set sp := suiteSponge shake sha3 suite
  have hpf : niProve M sp sha256 session_id inst witness rng
      = schnorrSerializeCommitment M
          (linearMapApply M inst.linear_map
            (schnorrNonces rng 0 inst.linear_map.num_scalars))
        ++ schnorrSerializeResponse
          (schnorrProverResponse inst
            (witness, schnorrNonces rng 0 inst.linear_map.num_scalars)
            ((codecVerifierChallenge sp (codecProverMessage M sp
              (nizkInitState M sp sha256 session_id inst)
              (linearMapApply M inst.linear_map
                (schnorrNonces rng 0 inst.linear_map.num_scalars)))).2)) := rfl
  rw [hpf,
    niVerify_split M hM sp sha256 session_id inst _ _
      (by simp [linearMapApply, hWF]) (schnorrProverResponse_lt _ _ _)]
  exact schnorrVerifier_complete M hM inst hWF witness hw hrel _
    (schnorrNonces_length rng 0 _) _

/-- Witness for C1: the discrete-log statement `X = 2 * G` over the
scalar-field group, empty session id, all-zero RNG and hash models, under the
SHAKE128 registry entry. -/
theorem c1_completeness_witness :
    niVerify zmodGroupModel (suiteSponge zeroShake zeroSha3 .P256_SHAKE128) id [] wInst
      (niProve zmodGroupModel (suiteSponge zeroShake zeroSha3 .P256_SHAKE128) id [] wInst
        [2] (fun _ => 0)) = .ok true :=
  c1_completeness zmodGroupModel zmodGroupLaws wInst rfl [2] rfl rfl [] (fun _ => 0)
    id zeroShake zeroSha3 .P256_SHAKE128

theorem map_serialize_singleton (M : GroupModel) (l : List M.G) :
    (l.map (fun e => modelSerialize M [e])).flatten = modelSerialize M l := by
  induction l with
  | nil => rfl
  | cons g gs ih =>
    simp only [List.map_cons, List.flatten_cons, ih, modelSerialize,
      List.map_nil, List.flatten_nil, List.append_nil]

/-- C2 counterexample: at the one-scalar, one-element, one-constraint P-256
instance whose element and image are the identity, with the hash modelled as
the identity function, the label `Instance.get_label` computes differs from
the SHA-256 input the claim prescribes (the code hashes neither
`num_elements` nor the linear map's group elements). -/
theorem c2_instance_label_cex :
    instanceGetLabel p256Model id cexInstP256
      ≠ id (specInstanceLabelPreimage p256Model cexInstP256) := by decide

/-- C2 amended: `Instance.get_label()` returns the SHA-256 digest of
`num_scalars` as a 4-byte little-endian integer, then `num_constraints` as a
4-byte little-endian integer, then the concatenated serializations of the
image elements — it does not hash `num_elements` or the linear map's group
elements (the claimed full format is computed by `LinearRelation.get_label`
instead). -/
theorem c2_instance_label_amended (M : GroupModel) (sha256 : List Nat → List Nat)
    (inst : InstanceModel M.G) :
    instanceGetLabel M sha256 inst
      = sha256 (natToBytesLE 4 inst.linear_map.num_scalars
          ++ natToBytesLE 4 inst.linear_map.num_constraints
          ++ modelSerialize M inst.image) := by
  rw [instanceGetLabel, map_serialize_singleton]

/-- C6: `verifier_challenge` squeezes exactly `scalar_byte_length + 16 = 48`
bytes from the sponge, interprets them as a big-endian integer, and returns
that integer reduced modulo the scalar-field order (in particular the result
is below the order), leaving the sponge in the post-squeeze state. -/
theorem c6_verifier_challenge :
    scalarByteLen + 16 = 48
    ∧ ∀ (sp : SpongeModel) (st : sp.S),
        (codecVerifierChallenge sp st).2
            = natFromBytesBE ((sp.squeeze st 48).2) % nP256
          ∧ (codecVerifierChallenge sp st).2 < nP256
          ∧ (codecVerifierChallenge sp st).1 = (sp.squeeze st 48).1 := by
  have h48 : scalarByteLen + 16 = 48 := by rw [scalarByteLen_eq]
  refine ⟨h48, fun sp st => ⟨?_, ?_, ?_⟩⟩
  · simp only [codecVerifierChallenge, h48]
  · exact Nat.mod_lt _ nP256_pos
  · simp only [codecVerifierChallenge, h48]

/-- C8: `ScalarField.random` always lands in `[1, order - 1]`: it never
returns the zero scalar, so prover nonces and simulated responses are never
zero (and the samples avoid a full-field value, so they are not uniform over
the whole field). -/
theorem c8_random_nonzero :
    (∀ v, 1 ≤ sfRandom v ∧ sfRandom v ≤ nP256 - 1)
    ∧ (∀ (rng : Nat → Nat) (k0 count : Nat), ∀ x ∈ schnorrNonces rng k0 count,
        1 ≤ x ∧ x ≤ nP256 - 1 ∧ x ≠ 0)
    ∧ (∀ (rng : Nat → Nat) (k0 count : Nat),
        ∀ x ∈ schnorrSimulateResponse rng k0 count, x ≠ 0) := by
  have h2 : 2 ≤ nP256 := by decide
  have hcore : ∀ v, 1 ≤ sfRandom v ∧ sfRandom v ≤ nP256 - 1 := by
    intro v
    have hm : v % (nP256 - 1) < nP256 - 1 := Nat.mod_lt _ (by omega)
    have hv : sfRandom v = 1 + v % (nP256 - 1) := by
      rw [sfRandom, pfMk, Nat.mod_eq_of_lt (by omega)]
    omega
  have hmem : ∀ (rng : Nat → Nat) (k0 count : Nat), ∀ x ∈ schnorrNonces rng k0 count,
      1 ≤ x ∧ x ≤ nP256 - 1 ∧ x ≠ 0 := by
    intro rng k0 count x hx
    simp only [schnorrNonces, List.mem_map] at hx
    obtain ⟨i, _, rfl⟩ := hx
    have := hcore (rng (k0 + i))
    omega
  exact ⟨hcore, hmem, fun rng k0 count x hx => (hmem rng k0 count x hx).2.2⟩

/-- Witness for C8: the first nonce drawn from the all-zero RNG stream is the
scalar 1, which lies in `[1, order - 1]` and is nonzero. -/
theorem c8_random_nonzero_witness : 1 ≤ (1 : Nat) ∧ (1 : Nat) ≤ nP256 - 1 ∧ (1 : Nat) ≠ 0 :=
  c8_random_nonzero.2.1 (fun _ => 0) 0 1 1 (by decide)

/-- C9: over `GF(p)` with `p ≡ 3 (mod 4)`, `is_square(0)` returns `true` but
`sqrt(0)` returns no root, even though `0 * 0 = 0`; in general `sqrt` returns
a root exactly for the elements whose Euler power `a ^ ((p-1)/2) mod p`
equals 1, i.e. only for nonzero quadratic residues. -/
theorem c9_sqrt_zero_euler (p : Nat) (hp4 : p % 4 = 3) :
    pfSqrt p 0 = .ok none
    ∧ pfIsSquare p 0 = true
    ∧ pfMul p 0 0 = 0
    ∧ ∀ a, (∃ r, pfSqrt p a = .ok (some r)) ↔ powMod a ((p - 1) / 2) p = 1 := by
  have hp3 : 3 ≤ p := le_trans (by omega) (hp4 ▸ Nat.mod_le p 4)
  have hezero : powMod 0 ((p - 1) / 2) p = 0 := by
    have he : (p - 1) / 2 ≠ 0 := by omega
    rw [powMod, zero_pow he, Nat.zero_mod]
  refine ⟨?_, ?_, ?_, ?_⟩
  · rw [pfSqrt, if_neg (by omega), if_pos (by rw [hezero]; omega)]
  · rw [pfIsSquare, if_pos rfl]
  · rw [pfMul, Nat.zero_mul, Nat.zero_mod]
  · intro a
    rw [pfSqrt, if_neg (by omega)]
    by_cases h : powMod a ((p - 1) / 2) p = 1
    · simp [h]
    · simp [h]

/-- Witness for C9: the field `GF(7)`. -/
theorem c9_sqrt_zero_euler_witness :
    pfSqrt 7 0 = .ok none ∧ pfIsSquare 7 0 = true ∧ pfMul 7 0 0 = 0
      ∧ ∀ a, (∃ r, pfSqrt 7 a = .ok (some r)) ↔ powMod a ((7 - 1) / 2) 7 = 1 :=
  c9_sqrt_zero_euler 7 (by decide)

/-- C10: `GroupP256.deserialize` turns any 33-byte block whose first byte is
zero into the identity element without inspecting the other 32 bytes: for an
arbitrary 32-byte tail `t`, prefixing `0x00 || t` to any valid-length input
yields the identity followed by the decoding of the rest, so non-canonical
identity encodings are accepted. -/
theorem c10_identity_block (t rest : List Nat) (ht : t.length = 32)
    (hrest : rest.length % 33 = 0) :
    p256Deserialize pP256 aP256 bP256 ((0 :: t) ++ rest)
      = (p256Deserialize pP256 aP256 bP256 rest).map (fun l => ECPoint.inf :: l) := by
  have hlen : ((0 :: t) ++ rest).length = 33 + rest.length := by
    rw [List.length_append, List.length_cons, ht]
  have hcnt : ((0 :: t) ++ rest).length / 33 = rest.length / 33 + 1 := by
    rw [hlen]; omega
  have hchunk : p256DeserChunk pP256 aP256 bP256 (0 :: t) = .ok .inf := by
    simp [p256DeserChunk]
  rw [p256Deserialize, if_neg (by rw [hlen]; omega), hcnt,
    chunkFoldE_cons 33 _ (0 :: t) (by rw [List.length_cons, ht]) _ rest, hchunk,
    p256Deserialize, if_neg (by omega)]
  rfl

/-- Witness for C10: the non-canonical block of a zero byte followed by 32
bytes of 0xFF decodes to the identity. -/
theorem c10_identity_block_witness :
    p256Deserialize pP256 aP256 bP256 ((0 :: List.replicate 32 255) ++ [])
      = (p256Deserialize pP256 aP256 bP256 []).map (fun l => ECPoint.inf :: l) :=
  c10_identity_block (List.replicate 32 255) [] (by decide) (by decide)

/-- C4 counterexample: on the Keccak256 variant (with a content-sensitive
32-byte digest model), inserting a squeeze of length 0 after an absorb changes
the output of the next squeeze, so zero-length squeezes are not no-ops. -/
theorem c4_zero_ops_cex :
    ((keccakSponge lenSha3).squeeze
        (((keccakSponge lenSha3).squeeze
          ((keccakSponge lenSha3).absorb ((keccakSponge lenSha3).ofIV [0]) [1]) 0).1) 32).2
      ≠ ((keccakSponge lenSha3).squeeze
          ((keccakSponge lenSha3).absorb ((keccakSponge lenSha3).ofIV [0]) [1]) 32).2 := by
  decide

/-- C4 amended: absorbing the empty string is a no-op on both sponge variants,
and on the SHAKE128 variant a zero-length squeeze is also a no-op; but on the
Keccak256 variant a zero-length squeeze, while producing no output, ratchets
the state to `SHA3-256(state || buffer)` and clears the buffer, so it can
change the output of subsequent squeezes. -/
theorem c4_zero_ops_amended (shake : List Nat → Nat → List Nat)
    (hshake : ∀ s L, (shake s L).length = L)
    (sha3 : List Nat → List Nat)
    (st : List Nat) (ks : List Nat × List Nat) :
    (shakeSponge shake).absorb st [] = st
    ∧ ((shakeSponge shake).squeeze st 0).1 = st
    ∧ (keccakSponge sha3).absorb ks [] = ks
    ∧ ((keccakSponge sha3).squeeze ks 0).1 = (sha3 (ks.1 ++ ks.2), [])
    ∧ ((keccakSponge sha3).squeeze ks 0).2 = [] := by
  have hsq0 : shake st 0 = [] := List.eq_nil_of_length_eq_zero (hshake st 0)
  refine ⟨List.append_nil st, ?_, ?_, ?_, ?_⟩
  · show st ++ shake st 0 = st
    rw [hsq0, List.append_nil]
  · show (ks.1, ks.2 ++ []) = ks
    rw [List.append_nil]
  · show (sha3 (ks.1 ++ ks.2 ++ (keccakBlocks sha3 (sha3 (ks.1 ++ ks.2)) ((0 + 31) / 32)).take 0),
        ([] : List Nat)) = (sha3 (ks.1 ++ ks.2), [])
    rw [List.take_zero, List.append_nil]
  · show (keccakBlocks sha3 (sha3 (ks.1 ++ ks.2)) ((0 + 31) / 32)).take 0 = []
    rw [List.take_zero]

/-- Witness for C4 (amended): the degenerate length-respecting SHAKE model on
the empty state and the all-zero SHA3 model on the empty state. -/
theorem c4_zero_ops_amended_witness :
    (shakeSponge zeroShake).absorb [] [] = []
    ∧ ((shakeSponge zeroShake).squeeze [] 0).1 = []
    ∧ (keccakSponge zeroSha3).absorb ([], []) [] = (([], []) : List Nat × List Nat)
    ∧ ((keccakSponge zeroSha3).squeeze ([], []) 0).1 = (zeroSha3 ([] ++ []), [])
    ∧ ((keccakSponge zeroSha3).squeeze ([], []) 0).2 = [] :=
  c4_zero_ops_amended zeroShake (fun _ L => List.length_replicate L 0) zeroSha3 [] ([], [])

/-- C5: with well-shaped inputs (commitment of length `num_constraints`,
response of length `num_scalars`), the Schnorr verifier accepts exactly when
every per-constraint equation `linear_map(response)[i] = commitment[i] +
challenge * image[i]` holds; otherwise it fails with a verification error. -/
theorem c5_verifier_iff (M : GroupModel) (hM : GroupLaws M) (inst : InstanceModel M.G)
    (hWF : inst.linear_map.linear_combinations.length = inst.linear_map.num_constraints)
    (commitment : List M.G) (challenge : Nat) (response : List Nat)
    (hcl : commitment.length = inst.linear_map.num_constraints)
    (hrl : response.length = inst.linear_map.num_scalars) :
    (schnorrVerifier M inst commitment challenge response = .ok true
      ↔ ∀ i < inst.linear_map.num_constraints,
          lcEval M inst.linear_map.group_elements response
              (inst.linear_map.linear_combinations.getD i ([], []))
            = M.gadd (commitment.getD i M.gid)
                (M.gsmul challenge (inst.image.getD i M.gid)))
    ∧ (schnorrVerifier M inst commitment challenge response = .ok true
        ∨ schnorrVerifier M inst commitment challenge response
            = .error "Verification failed") := by
  rw [schnorrVerifier, if_neg (by simp [hcl]), if_neg (by simp [hrl])]
  have hiff : listBeq M.gbeq
      ((List.range inst.linear_map.num_constraints).map fun i =>
        M.gadd (commitment.getD i M.gid) (M.gsmul challenge (inst.image.getD i M.gid)))
      (linearMapApply M inst.linear_map response) = true
      ↔ ∀ i < inst.linear_map.num_constraints,
          lcEval M inst.linear_map.group_elements response
              (inst.linear_map.linear_combinations.getD i ([], []))
            = M.gadd (commitment.getD i M.gid)
                (M.gsmul challenge (inst.image.getD i M.gid)) := by
    rw [listBeq_iff M.gbeq hM.gbeq_iff]
    constructor
    · intro h i hic
      have hgetD := congrArg (fun l => l.getD i M.gid) h
      simp only [getD_range_map, if_pos hic] at hgetD
      rw [linearMapApply,
        getD_map_lt _ _ i M.gid (([], []) : List Nat × List Nat) (hWF ▸ hic)] at hgetD
      exact hgetD.symm
    · intro h
      apply List.ext_getElem
      · simp [linearMapApply, hWF]
      · intro i h1 h2
        have hic : i < inst.linear_map.num_constraints := by simpa using h1
        have hilcs : i < inst.linear_map.linear_combinations.length := hWF ▸ hic
        simp only [List.getElem_map, List.getElem_range, linearMapApply]
        have hi := h i hic
        rw [List.getD_eq_getElem _ (([], []) : List Nat × List Nat) hilcs] at hi
        exact hi.symm
  by_cases hb : listBeq M.gbeq
      ((List.range inst.linear_map.num_constraints).map fun i =>
        M.gadd (commitment.getD i M.gid) (M.gsmul challenge (inst.image.getD i M.gid)))
      (linearMapApply M inst.linear_map response) = true
  · rw [if_pos hb]
    exact ⟨⟨fun _ => hiff.mp hb, fun _ => rfl⟩, Or.inl rfl⟩
  · rw [if_neg hb]
    refine ⟨⟨fun h => absurd h (by simp), fun hpt => absurd (hiff.mpr hpt) hb⟩, Or.inr rfl⟩

/-- Witness for C5: the discrete-log instance over the scalar-field group with
the zero commitment, zero challenge and zero response. -/
theorem c5_verifier_iff_witness :
    (schnorrVerifier zmodGroupModel wInst [(0 : ZMod nP256)] 0 [0] = .ok true
      ↔ ∀ i < wInst.linear_map.num_constraints,
          lcEval zmodGroupModel wInst.linear_map.group_elements [0]
              (wInst.linear_map.linear_combinations.getD i ([], []))
            = zmodGroupModel.gadd ([(0 : ZMod nP256)].getD i zmodGroupModel.gid)
                (zmodGroupModel.gsmul 0 (wInst.image.getD i zmodGroupModel.gid)))
    ∧ (schnorrVerifier zmodGroupModel wInst [(0 : ZMod nP256)] 0 [0] = .ok true
        ∨ schnorrVerifier zmodGroupModel wInst [(0 : ZMod nP256)] 0 [0]
            = .error "Verification failed") :=
  c5_verifier_iff zmodGroupModel zmodGroupLaws wInst rfl [(0 : ZMod nP256)] 0 [0] rfl rfl

theorem natCast_inj_of_lt {p a b : Nat} (ha : a < p) (hb : b < p)
    (h : (a : ZMod p) = (b : ZMod p)) : a = b := by
  haveI : NeZero p := ⟨by omega⟩
  have hval := congrArg ZMod.val h
  rwa [ZMod.val_cast_of_lt ha, ZMod.val_cast_of_lt hb] at hval

theorem p256Serialize_singleton (P : ECPoint) : p256Serialize [P] = p256SerializeOne P := by
  simp [p256Serialize]

theorem p256SerializeOne_length (P : ECPoint) : (p256SerializeOne P).length = 33 := by
  cases P <;> simp [p256SerializeOne, natToBytesBE_length]

theorem p256Deserialize_single (p aa bb : Nat) (b : List Nat) (hb : b.length = 33) :
    p256Deserialize p aa bb b = (p256DeserChunk p aa bb b).map (fun P => [P]) := by
  have htake : b.take 33 = b := by rw [← hb]; exact List.take_length b
  have hdrop : b.drop 33 = [] := by rw [← hb]; exact List.drop_length b
  rw [p256Deserialize, if_neg (by rw [hb]; decide), hb]
  show chunkFoldE 33 (p256DeserChunk p aa bb) 1 b = _
  rw [chunkFoldE, htake, hdrop]
  cases hfb : p256DeserChunk p aa bb b <;> rfl

theorem p256DeserChunk_pt (p aa bb flag : Nat) (hflag : flag ≠ 0) (tail : List Nat) :
    p256DeserChunk p aa bb (flag :: tail)
      = (match pfSqrt p
            (pfAdd p (pfAdd p
              (pfMul p (pfMul p (pfMk p (natFromBytesBE tail)) (pfMk p (natFromBytesBE tail)))
                (pfMk p (natFromBytesBE tail)))
              (pfMul p (pfMk p aa) (pfMk p (natFromBytesBE tail))))
            (pfMk p bb)) with
        | .error e => .error e
        | .ok none => .error "Invalid point"
        | .ok (some y0) =>
          curveMk p aa bb (pfMk p (natFromBytesBE tail))
            (if (flag = 2 ∧ y0 % 2 = 1) ∨ (flag = 3 ∧ y0 % 2 = 0)
              then pfNeg p y0 else y0)) := by
  rw [p256DeserChunk, if_neg (by simpa using hflag)]
  rfl

/-- C7: for every on-curve P-256-style point (including the identity) over a
prime `p ≡ 3 (mod 4)` that fits the hard-coded 32-byte width,
`deserialize(serialize([P])) = [P]`; and for every scalar `s` of the P-256
scalar field, `deserialize(serialize([s])) = [s]`, the scalar encoding being a
fixed-width 32-byte little-endian string. -/
theorem c7_serialization_roundtrip (p aa bb : Nat) (hp : Nat.Prime p)
    (hp4 : p % 4 = 3) (hpsize : p < 256 ^ 32)
    (P : ECPoint)
    (hP : P = ECPoint.inf ∨ ∃ x y, P = .pt x y ∧ x < p ∧ y < p ∧ y ≠ 0 ∧
      pfMul p y y = pfAdd p (pfAdd p (pfMul p (pfMul p x x) x)
        (pfMul p (pfMk p aa) x)) (pfMk p bb))
    (s : Nat) (hs : s < nP256) :
    p256Deserialize p aa bb (p256Serialize [P]) = .ok [P]
    ∧ sfDeserialize (sfSerialize [s]) = .ok [s]
    ∧ (sfSerialize [s]).length = 32 := by
  refine ⟨?_, sfDeserialize_sfSerialize [s]
      (by intro z hz; rw [List.mem_singleton] at hz; exact hz ▸ hs),
    by rw [sfSerialize_length, List.length_singleton]⟩
  rw [p256Serialize_singleton, p256Deserialize_single p aa bb _ (p256SerializeOne_length P)]
  rcases hP with rfl | ⟨x, y, rfl, hx, hy, hy0, honcurve⟩
  · show (p256DeserChunk p aa bb (0 :: List.replicate 32 0)).map _ = _
    simp [p256DeserChunk, Except.map]
  · haveI : Fact (Nat.Prime p) := ⟨hp⟩
    haveI : NeZero p := ⟨hp.ne_zero⟩
    have hp1 : 1 < p := hp.one_lt
    have hpodd : p % 2 = 1 := by omega
    have hycast : ((y : Nat) : ZMod p) ≠ 0 := by
      rw [Ne, ZMod.natCast_zmod_eq_zero_iff_dvd]
      exact fun hdvd => absurd (Nat.eq_zero_of_dvd_of_lt hdvd hy) hy0
    have hflt : ((y : Nat) : ZMod p) ^ (p - 1) = 1 :=
      ZMod.pow_card_sub_one_eq_one hycast
    have hysq_cast : ((pfMul p y y : Nat) : ZMod p) = ((y : Nat) : ZMod p) ^ 2 := by
      rw [pfMul, ZMod.natCast_mod]; push_cast; ring
    -- the Euler criterion accepts y^2
    have hleg : powMod (pfMul p y y) ((p - 1) / 2) p = 1 := by
      apply natCast_inj_of_lt (powMod_lt _ _ hp.pos) hp1
      rw [powMod_cast, hysq_cast, ← pow_mul, Nat.cast_one]
      have h2 : 2 * ((p - 1) / 2) = p - 1 := by omega
      rw [h2, hflt]
    -- the computed candidate root is y up to sign
    set r := powMod (pfMul p y y) ((p + 1) / 4) p with hr_def
    have hr_lt : r < p := powMod_lt _ _ hp.pos
    have hr_cast : ((r : Nat) : ZMod p) = (((y : Nat) : ZMod p) ^ 2) ^ ((p + 1) / 4) := by
      rw [hr_def, powMod_cast, hysq_cast]
    have hr_sq : ((r : Nat) : ZMod p) * ((r : Nat) : ZMod p)
        = ((y : Nat) : ZMod p) * ((y : Nat) : ZMod p) := by
      rw [hr_cast, ← pow_add]
      have hquarter : (p + 1) / 4 + (p + 1) / 4 = (p - 1) / 2 + 1 := by omega
      rw [hquarter, pow_succ, ← pow_mul,
        show 2 * ((p - 1) / 2) = p - 1 by omega, hflt, one_mul, pow_two]
    have hneg : ((p - y : Nat) : ZMod p) = -((y : Nat) : ZMod p) := by
      rw [Nat.cast_sub (le_of_lt hy), ZMod.natCast_self, zero_sub]
    have hcases : r = y ∨ r = p - y := by
      rcases mul_self_eq_mul_self_iff.mp hr_sq with h | h
      · exact Or.inl (natCast_inj_of_lt hr_lt hy h)
      · refine Or.inr (natCast_inj_of_lt hr_lt (by omega) ?_)
        rw [h, hneg]
    -- the x coordinate round-trips
    have hxmk : pfMk p (natFromBytesBE (natToBytesBE 32 x)) = x := by
      rw [natFromBytesBE_natToBytesBE 32 x (lt_trans hx hpsize)]
      exact Nat.mod_eq_of_lt hx
    -- the square root call succeeds with the candidate root
    have hsqrt : pfSqrt p (pfMul p y y) = .ok (some r) := by
      rw [pfSqrt, if_neg (by omega), if_neg (by simp [hleg])]
    -- the curve constructor accepts (x, y)
    have hcm : curveMk p aa bb x y = .ok (.pt x y) := by
      have hxr : pfMk p x = x := Nat.mod_eq_of_lt hx
      have hyr : pfMk p y = y := Nat.mod_eq_of_lt hy
      simp only [curveMk, hxr, hyr]
      rw [if_pos honcurve]
    have hone : p256SerializeOne (.pt x y)
        = (if y % 2 = 0 then 2 else 3) :: natToBytesBE 32 x := rfl
    rw [hone, p256DeserChunk_pt p aa bb _ (by split <;> norm_num) (natToBytesBE 32 x),
      hxmk, ← honcurve, hsqrt]
    show (curveMk p aa bb x
        (if ((if y % 2 = 0 then 2 else 3) = 2 ∧ r % 2 = 1)
            ∨ ((if y % 2 = 0 then 2 else 3) = 3 ∧ r % 2 = 0)
          then pfNeg p r else r)).map (fun P => [P]) = Except.ok [ECPoint.pt x y]
    have hfinal : (if ((if y % 2 = 0 then 2 else 3) = 2 ∧ r % 2 = 1)
            ∨ ((if y % 2 = 0 then 2 else 3) = 3 ∧ r % 2 = 0)
          then pfNeg p r else r) = y := by
      rcases hcases with hr_eq | hr_eq
      · have hnotC : ¬(((if y % 2 = 0 then 2 else 3) = 2 ∧ r % 2 = 1)
            ∨ ((if y % 2 = 0 then 2 else 3) = 3 ∧ r % 2 = 0)) := by
          by_cases hy2 : y % 2 = 0
          · simp [hy2, hr_eq]
          · have hy2' : y % 2 = 1 := by omega
            simp [hy2, hy2', hr_eq]
        rw [if_neg hnotC, hr_eq]
      · have hpar : r % 2 ≠ y % 2 := by omega
        have hC : ((if y % 2 = 0 then 2 else 3) = 2 ∧ r % 2 = 1)
            ∨ ((if y % 2 = 0 then 2 else 3) = 3 ∧ r % 2 = 0) := by
          by_cases hy2 : y % 2 = 0
          · exact Or.inl ⟨by rw [if_pos hy2], by omega⟩
          · exact Or.inr ⟨by rw [if_neg hy2], by omega⟩
        rw [if_pos hC, pfNeg, Nat.mod_eq_of_lt hr_lt, hr_eq,
          show p - (p - y) = y by omega, Nat.mod_eq_of_lt hy]
    rw [hfinal, hcm]
    rfl

/-- Witness for C7: the curve `y^2 = x^3 + 3` over `GF(7)` at the point
`(1, 2)` and the scalar 5. -/
theorem c7_serialization_roundtrip_witness :
    p256Deserialize 7 0 3 (p256Serialize [ECPoint.pt 1 2]) = .ok [ECPoint.pt 1 2]
    ∧ sfDeserialize (sfSerialize [5]) = .ok [5]
    ∧ (sfSerialize [5]).length = 32 :=
  c7_serialization_roundtrip 7 0 3 (by norm_num) (by decide) (by decide)
    (ECPoint.pt 1 2)
    (Or.inr ⟨1, 2, rfl, by decide, by decide, by decide, by decide⟩)
    5 (by decide)

theorem modelSerialize_length_of (M : GroupModel) (k : Nat)
    (hser : ∀ g : M.G, (M.serializeOne g).length = k) (l : List M.G) :
    (modelSerialize M l).length = k * l.length := by
  induction l with
  | nil => simp [modelSerialize]
  | cons g gs ih =>
    simp only [modelSerialize, List.map_cons, List.flatten_cons, List.length_append,
      hser g, List.length_cons] at *
    rw [ih]; ring

theorem sum_map_add (l : List α) (f g : α → Nat) :
    (l.map fun x => f x + g x).sum = (l.map f).sum + (l.map g).sum := by
  induction l with
  | nil => rfl
  | cons x xs ih => simp only [List.map_cons, List.sum_cons, ih]; omega

theorem andCommit_bytes_length (M : GroupModel)
    (hser : ∀ g : M.G, (M.serializeOne g).length = 33) (rng : Nat → Nat) :
    ∀ (subs : List (InstanceModel M.G × List Nat)) (k0 : Nat),
      (∀ sub ∈ subs, sub.1.linear_map.linear_combinations.length
        = sub.1.linear_map.num_constraints) →
      (andSerializeCommitment M (subs.map Prod.fst)
          ((andCommitList M rng subs k0).map Prod.snd)).length
        = (subs.map fun sub => 33 * sub.1.linear_map.num_constraints).sum := by
  intro subs
  induction subs with
  | nil => intro k0 _; rfl
  | cons sub rest ih =>
    intro k0 h
    obtain ⟨inst, w⟩ := sub
    have hcons : andSerializeCommitment M (((inst, w) :: rest).map Prod.fst)
        ((andCommitList M rng ((inst, w) :: rest) k0).map Prod.snd)
      = schnorrSerializeCommitment M (linearMapApply M inst.linear_map
          (schnorrNonces rng k0 inst.linear_map.num_scalars))
        ++ andSerializeCommitment M (rest.map Prod.fst)
            ((andCommitList M rng rest (k0 + inst.linear_map.num_scalars)).map
              Prod.snd) := rfl
    have hhead : (schnorrSerializeCommitment M (linearMapApply M inst.linear_map
        (schnorrNonces rng k0 inst.linear_map.num_scalars))).length
        = 33 * inst.linear_map.num_constraints := by
      rw [show schnorrSerializeCommitment M (linearMapApply M inst.linear_map
          (schnorrNonces rng k0 inst.linear_map.num_scalars))
          = modelSerialize M (linearMapApply M inst.linear_map
              (schnorrNonces rng k0 inst.linear_map.num_scalars)) from rfl,
        modelSerialize_length_of M 33 hser,
        show (linearMapApply M inst.linear_map
          (schnorrNonces rng k0 inst.linear_map.num_scalars)).length
          = inst.linear_map.linear_combinations.length from by simp [linearMapApply],
        h (inst, w) (List.mem_cons_self _ _)]
    rw [hcons, List.length_append, hhead,
      ih _ (fun s hs => h s (List.mem_cons_of_mem _ hs)), List.map_cons, List.sum_cons]

theorem andResponse_bytes_length (M : GroupModel) (rng : Nat → Nat) (e : Nat) :
    ∀ (subs : List (InstanceModel M.G × List Nat)) (k0 : Nat),
      (andSerializeResponse (subs.map Prod.fst)
        (((subs.map Prod.fst).zip ((andCommitList M rng subs k0).map Prod.fst)).map
          fun t => schnorrProverResponse t.1 t.2 e)).length
        = (subs.map fun sub => 32 * sub.1.linear_map.num_scalars).sum := by
  intro subs
  induction subs with
  | nil => intro k0; rfl
  | cons sub rest ih =>
    intro k0
    obtain ⟨inst, w⟩ := sub
    have hcons : andSerializeResponse (((inst, w) :: rest).map Prod.fst)
        (((((inst, w) :: rest).map Prod.fst).zip
          ((andCommitList M rng ((inst, w) :: rest) k0).map Prod.fst)).map
            fun t => schnorrProverResponse t.1 t.2 e)
      = schnorrSerializeResponse (schnorrProverResponse inst
          (w, schnorrNonces rng k0 inst.linear_map.num_scalars) e)
        ++ andSerializeResponse (rest.map Prod.fst)
            (((rest.map Prod.fst).zip
              ((andCommitList M rng rest (k0 + inst.linear_map.num_scalars)).map
                Prod.fst)).map fun t => schnorrProverResponse t.1 t.2 e) := rfl
    have hhead : (schnorrSerializeResponse (schnorrProverResponse inst
        (w, schnorrNonces rng k0 inst.linear_map.num_scalars) e)).length
        = 32 * inst.linear_map.num_scalars := by
      rw [show schnorrSerializeResponse (schnorrProverResponse inst
          (w, schnorrNonces rng k0 inst.linear_map.num_scalars) e)
          = sfSerialize (schnorrProverResponse inst
            (w, schnorrNonces rng k0 inst.linear_map.num_scalars) e) from rfl,
        sfSerialize_length, schnorrProverResponse_length]
    rw [hcons, List.length_append, hhead, ih (k0 + inst.linear_map.num_scalars),
      List.map_cons, List.sum_cons]

/-- C3 counterexample: for an AND composition of two identical one-scalar,
one-constraint sub-statements over a byte-transparent group (degenerate but
length-faithful hash models), the bytes `prove` produces are not the
concatenation of complete sub-proofs: the second sub-proof's commitment bytes
do not follow the first sub-proof's response bytes. -/
theorem c3_and_layout_cex :
    niProveAnd natBytesModel (shakeSponge zeroShake) id []
        [(cexInstNat, [2]), (cexInstNat, [2])] (fun _ => 0)
      ≠ specAndProveInterleaved natBytesModel (shakeSponge zeroShake) id []
        [(cexInstNat, [2]), (cexInstNat, [2])] (fun _ => 0) := by
  decide

/-- C3 amended: the proof bytes of an AND composition are all the commitment
serializations in declaration order (`Σ 33·c_i` bytes) followed by all the
response serializations in declaration order (`Σ 32·s_i` bytes); the total
length is `Σ (33·c_i + 32·s_i)`. -/
theorem c3_and_layout_amended (M : GroupModel) (sp : SpongeModel)
    (sha256 : List Nat → List Nat) (session_id : List Nat)
    (subs : List (InstanceModel M.G × List Nat)) (rng : Nat → Nat)
    (hser : ∀ g : M.G, (M.serializeOne g).length = 33)
    (hlc : ∀ sub ∈ subs, sub.1.linear_map.linear_combinations.length
      = sub.1.linear_map.num_constraints) :
    (∃ cbytes rbytes : List Nat,
      niProveAnd M sp sha256 session_id subs rng = cbytes ++ rbytes
      ∧ cbytes.length = (subs.map fun sub => 33 * sub.1.linear_map.num_constraints).sum
      ∧ rbytes.length = (subs.map fun sub => 32 * sub.1.linear_map.num_scalars).sum)
    ∧ (niProveAnd M sp sha256 session_id subs rng).length
        = (subs.map fun sub => 33 * sub.1.linear_map.num_constraints
            + 32 * sub.1.linear_map.num_scalars).sum := by
  have hsplit : niProveAnd M sp sha256 session_id subs rng
      = andSerializeCommitment M (subs.map Prod.fst)
          ((andCommitList M rng subs 0).map Prod.snd)
        ++ andSerializeResponse (subs.map Prod.fst)
          (((subs.map Prod.fst).zip ((andCommitList M rng subs 0).map Prod.fst)).map
            fun t => schnorrProverResponse t.1 t.2
              ((codecVerifierChallenge sp
                (sp.absorb (sp.ofIV (codecInit session_id
                  (andGetLabel M sha256 (subs.map Prod.fst))))
                  (modelSerialize M
                    (((andCommitList M rng subs 0).map Prod.snd).flatten)))).2)) := rfl
  have hc := andCommit_bytes_length M hser rng subs 0 hlc
  have hr := andResponse_bytes_length M rng
    ((codecVerifierChallenge sp
      (sp.absorb (sp.ofIV (codecInit session_id
        (andGetLabel M sha256 (subs.map Prod.fst))))
        (modelSerialize M
          (((andCommitList M rng subs 0).map Prod.snd).flatten)))).2) subs 0
  refine ⟨⟨_, _, hsplit, hc, hr⟩, ?_⟩
  rw [hsplit, List.length_append, hc, hr, sum_map_add]

/-- Witness for C3 (amended): the two-sub-statement AND composition over the
byte-transparent group with degenerate hash models; the proof is 130 bytes:
two 33-byte commitments followed by two 32-byte responses. -/
theorem c3_and_layout_amended_witness :
    (∃ cbytes rbytes : List Nat,
      niProveAnd natBytesModel (shakeSponge zeroShake) id []
          [(cexInstNat, [2]), (cexInstNat, [2])] (fun _ => 0) = cbytes ++ rbytes
      ∧ cbytes.length = ([(cexInstNat, [2]), (cexInstNat, [2])].map
          fun sub => 33 * sub.1.linear_map.num_constraints).sum
      ∧ rbytes.length = ([(cexInstNat, [2]), (cexInstNat, [2])].map
          fun sub => 32 * sub.1.linear_map.num_scalars).sum)
    ∧ (niProveAnd natBytesModel (shakeSponge zeroShake) id []
        [(cexInstNat, [2]), (cexInstNat, [2])] (fun _ => 0)).length
        = ([(cexInstNat, [2]), (cexInstNat, [2])].map
            fun sub => 33 * sub.1.linear_map.num_constraints
              + 32 * sub.1.linear_map.num_scalars).sum :=
  c3_and_layout_amended natBytesModel (shakeSponge zeroShake) id []
    [(cexInstNat, [2]), (cexInstNat, [2])] (fun _ => 0)
    (fun g => List.length_replicate 33 g) (by decide)

end SigmaPoC
